import Mathlib

/-!
Shallow embedding of `pygadget.py` (GADGET-3 snapshot reader plus FOF and
Subfind catalogue readers).

Conventions of the embedding:
* A file is a partial map from byte positions to byte values
  (`File := Nat → Option Nat`); every byte of a real file is `< 256`.
  Reading past the end of the file yields `none`, which the reader turns
  into an error, matching `struct.unpack` raising on a short read.
* Machine integers read from the file are modelled as `Nat` word values
  (4- or 8-byte, little- or big-endian).  The only operation the source
  performs on the 8-byte float fields that matters for layout is the
  comparison `particle_mass[key] == 0.0`; an IEEE-754 double is zero exactly
  when all bits apart from the sign bit are zero, so per-type masses are kept
  as raw 8-byte words and tested with `floatWordIsZero`.
* Fallible Python code (raising `NameError` / `KeyError` / `ValueError` /
  `struct.error`) is modelled with `Except String` / `Option`.
* Pandas `DataFrame`s returned by `read_block` are modelled by `PBlock`
  (index of particle identifiers, column names, rows of raw words):
  the claims under study concern row/column structure and which payload
  bytes the rows come from, not float semantics.
-/

namespace PyGadget

/-- The six fixed particle types, in the order of `particle_keys`. -/
inductive PKey
  | gas
  | halo
  | disk
  | bulge
  | stars
  | bndry
deriving DecidableEq, Repr

/-- `particle_keys` from the source. -/
def particleKeys : List PKey := [.gas, .halo, .disk, .bulge, .stars, .bndry]

/-- `particle_keys.index(p)` over the fixed list. -/
def pkOrder : PKey → Nat
  | .gas => 0
  | .halo => 1
  | .disk => 2
  | .bulge => 3
  | .stars => 4
  | .bndry => 5

def pkeyName : PKey → String
  | .gas => "gas"
  | .halo => "halo"
  | .disk => "disk"
  | .bulge => "bulge"
  | .stars => "stars"
  | .bndry => "bndry"

/-- The fixed block keys, in the order of `block_keys`. -/
inductive BKey
  | header
  | pos
  | vel
  | id
  | mass
  | u
  | rho
  | ne
  | nh
  | hsml
  | sfr
  | age
  | metals
  | pot
  | accel
  | endt
  | tstp
  | esn
  | esncold
deriving DecidableEq, Repr

/-- `block_keys` from the source. -/
def blockKeys : List BKey :=
  [.header, .pos, .vel, .id, .mass, .u, .rho, .ne, .nh, .hsml, .sfr, .age,
   .metals, .pot, .accel, .endt, .tstp, .esn, .esncold]

/-- `block_keys.index(b)` over the fixed list. -/
def bkOrder : BKey → Nat
  | .header => 0
  | .pos => 1
  | .vel => 2
  | .id => 3
  | .mass => 4
  | .u => 5
  | .rho => 6
  | .ne => 7
  | .nh => 8
  | .hsml => 9
  | .sfr => 10
  | .age => 11
  | .metals => 12
  | .pot => 13
  | .accel => 14
  | .endt => 15
  | .tstp => 16
  | .esn => 17
  | .esncold => 18

def bkeyName : BKey → String
  | .header => "header"
  | .pos => "pos"
  | .vel => "vel"
  | .id => "id"
  | .mass => "mass"
  | .u => "u"
  | .rho => "rho"
  | .ne => "ne"
  | .nh => "nh"
  | .hsml => "hsml"
  | .sfr => "sfr"
  | .age => "age"
  | .metals => "metals"
  | .pot => "pot"
  | .accel => "accel"
  | .endt => "endt"
  | .tstp => "tstp"
  | .esn => "esn"
  | .esncold => "esncold"

/-- `element_keys` from the source: the 12 tracked chemical species. -/
def elementKeys : List String :=
  ["He", "C", "Mg", "O", "Fe", "Si", "H", "N", "Ne", "S", "Ca", "Zi"]

/-- Constructor arguments of `Simulation.__init__` that matter for layout:
the four externally supplied block flags and the wide-identifier switch. -/
structure Config where
  pot : Bool
  accel : Bool
  endt : Bool
  tstp : Bool
  useLongids : Bool
deriving DecidableEq, Repr

/-- State of a `Simulation` after `_read_header`: endianness, particle
counts, raw per-type mass words, the header flags (ints in the file, used
by their truthiness) and the constructor flags.  Header fields that no
block-layout decision depends on (times, cosmology, totals) are read by the
parser but not retained. -/
structure Sim where
  swap : Bool
  npart : List Nat
  massw : List Nat
  flagSfr : Nat
  flagFeedback : Nat
  flagCooling : Nat
  flagStellarAge : Nat
  flagMetals : Nat
  flagEntrIcs : Nat
  fileNumber : Nat
  flagPot : Bool
  flagAccel : Bool
  flagEndt : Bool
  flagTstp : Bool
  useLongids : Bool
deriving DecidableEq, Repr

/-- `self.particle_numbers[p]`. -/
def Sim.pnum (s : Sim) (p : PKey) : Nat := s.npart.getD (pkOrder p) 0

/-- `self.particle_mass[p]` as a raw 8-byte word. -/
def Sim.pmassw (s : Sim) (p : PKey) : Nat := s.massw.getD (pkOrder p) 0

/-- An IEEE-754 double is `== 0.0` exactly when every bit apart from the
sign bit is zero, i.e. when the raw word is `0` or `2^63`. -/
def floatWordIsZero (w : Nat) : Bool := w % 9223372036854775808 == 0

/-- `total_number` accumulated in `_file_structure`. -/
def totalNumber (s : Sim) : Nat := (particleKeys.map s.pnum).sum

/-- `mass_number` accumulated in `_file_structure`: particles of types whose
count is non-zero and whose per-type header mass is zero. -/
def massNumber (s : Sim) : Nat :=
  (particleKeys.map (fun k =>
    if s.pnum k ≠ 0 ∧ floatWordIsZero (s.pmassw k) then s.pnum k else 0)).sum

/-- `_file_structure`: the `block_sizes` dictionary.  `none` models a key
absent from the dictionary (its flag is unset); `some 0` models a key that
is present with computed size zero. -/
def blockSizes (s : Sim) (b : BKey) : Option Nat :=
  let dataSize := 4
  let size := totalNumber s * dataSize
  let sizeSpace := size * 3
  let sizeMass := massNumber s * dataSize
  let sizeGas := s.pnum .gas * dataSize
  let sizeStars := s.pnum .stars * dataSize
  let sizeBaryons := sizeGas + sizeStars
  let sizeMetals := sizeBaryons * elementKeys.length
  match b with
  | .header => some 256
  | .pos => some sizeSpace
  | .vel => some sizeSpace
  | .id => if s.useLongids then some (size * 2) else some size
  | .mass => some sizeMass
  | .u => some sizeGas
  | .rho => some sizeGas
  | .ne => if s.flagCooling ≠ 0 then some sizeGas else none
  | .nh => if s.flagCooling ≠ 0 then some sizeGas else none
  | .hsml => some sizeGas
  | .sfr => if s.flagSfr ≠ 0 then some sizeGas else none
  | .age => if s.flagStellarAge ≠ 0 then some sizeStars else none
  | .metals => if s.flagMetals ≠ 0 then some sizeMetals else none
  | .pot => if s.flagPot then some size else none
  | .accel => if s.flagAccel then some sizeSpace else none
  | .endt => if s.flagEndt then some sizeGas else none
  | .tstp => if s.flagTstp then some size else none
  | .esn => if s.flagFeedback ≠ 0 then some sizeBaryons else none
  | .esncold => if s.flagFeedback ≠ 0 then some sizeBaryons else none

/-! ### Byte-level file access -/

/-- A snapshot fragment file: a partial map from byte position to byte
value (`none` beyond the end of the file). -/
abbrev File := Nat → Option Nat

/-- `f.read(n)` after seeking to `pos`; `none` when fewer than `n` bytes
remain (a short read, on which `struct.unpack` / reshape raise). -/
def readBytes (f : File) (pos : Nat) : Nat → Option (List Nat)
  | 0 => some []
  | n + 1 => do
    let b ← f pos
    let rest ← readBytes f (pos + 1) n
    pure (b :: rest)

/-- Little-endian value of a byte list (first byte least significant). -/
def wordLE (bs : List Nat) : Nat := bs.foldr (fun b acc => b + 256 * acc) 0

/-- Word value of a byte group under the detected byte order
(`swap = true` means reversed, i.e. big-endian on a little-endian host). -/
def wordOf (sw : Bool) (bs : List Nat) : Nat :=
  if sw then wordLE bs.reverse else wordLE bs

/-- `unpack(s+'I'/'i', f.read(4))` at an absolute position. -/
def rd4 (sw : Bool) (f : File) (pos : Nat) : Option Nat :=
  (readBytes f pos 4).map (wordOf sw)

/-- `unpack(s+'d', f.read(8))` at an absolute position, kept as a raw word. -/
def rd8 (sw : Bool) (f : File) (pos : Nat) : Option Nat :=
  (readBytes f pos 8).map (wordOf sw)

/-- Six consecutive 4-byte reads (the per-particle-type header loops). -/
def rdList4 (sw : Bool) (f : File) (pos : Nat) : Nat → Option (List Nat)
  | 0 => some []
  | c + 1 => do
    let v ← rd4 sw f pos
    let rest ← rdList4 sw f (pos + 4) c
    pure (v :: rest)

/-- Six consecutive 8-byte reads (the per-particle-type mass loop). -/
def rdList8 (sw : Bool) (f : File) (pos : Nat) : Nat → Option (List Nat)
  | 0 => some []
  | c + 1 => do
    let v ← rd8 sw f pos
    let rest ← rdList8 sw f (pos + 8) c
    pure (v :: rest)

/-- A byte (if present) is a valid byte value: used to state that a file
under consideration consists of bytes below 256. -/
def optLt256 : Option Nat → Bool
  | none => true
  | some v => decide (v < 256)

/-! ### `_read_header` -/

/-- First half of the fixed header-field read sequence (bytes 4 to 127):
particle counts, per-type mass words, time, redshift, the sfr and feedback
flags, the total counts, and the cooling flag.  Field offsets are fixed by
the declared field widths. -/
def headerPart1 (sw : Bool) (f : File) :
    Option (List Nat × List Nat × Nat × Nat × Nat) := do
  let np ← rdList4 sw f 4 6
  let mw ← rdList8 sw f 28 6
  let _time ← rd8 sw f 76
  let _redshift ← rd8 sw f 84
  let fsfr ← rd4 sw f 92
  let ffb ← rd4 sw f 96
  let _tot ← rdList4 sw f 100 6
  let fcool ← rd4 sw f 124
  pure (np, mw, fsfr, ffb, fcool)

/-- Second half of the fixed header-field read sequence (bytes 128 to 199
and the trailing marker at byte 260): fragment count, box size, cosmology,
the stellar-age and metals flags, the high words, and the entropy-ICs
flag. -/
def headerPart2 (sw : Bool) (f : File) :
    Option (Nat × Nat × Nat × Nat × Nat) := do
  let fnum ← rd4 sw f 128
  let _box ← rd8 sw f 132
  let _om ← rd8 sw f 140
  let _ol ← rd8 sw f 148
  let _h ← rd8 sw f 156
  let fage ← rd4 sw f 164
  let fmet ← rd4 sw f 168
  let _hw ← rdList4 sw f 172 6
  let fentr ← rd4 sw f 196
  let tail ← rd4 sw f 260
  pure (fnum, fage, fmet, fentr, tail)

/-- The full header-field read sequence after the byte order `sw` has been
detected.  Returns the populated `Sim` and the trailing record size. -/
def headerCore (cfg : Config) (sw : Bool) (f : File) : Option (Sim × Nat) := do
  let (np, mw, fsfr, ffb, fcool) ← headerPart1 sw f
  let (fnum, fage, fmet, fentr, tail) ← headerPart2 sw f
  pure (⟨sw, np, mw, fsfr, ffb, fcool, fage, fmet, fentr, fnum,
         cfg.pot, cfg.accel, cfg.endt, cfg.tstp, cfg.useLongids⟩, tail)

/-- Header parse for a detected byte order: all field reads must succeed and
the trailing record size must equal `size_checked = 256`, else
`NameError("Error reading header ...")`. -/
def parseHeaderSw (cfg : Config) (sw : Bool) (f : File) : Except String Sim :=
  match headerCore cfg sw f with
  | none => .error "Error reading header"
  | some (s, tail) =>
    if tail = 256 then .ok s else .error "Error reading header"

/-- `_read_header`: reads the 4-byte sentinel with native (little-endian)
order; `65536` (the byte-swapped form of 256) selects reversed order,
`256` selects native order, anything else is fatal. -/
def parseHeader (cfg : Config) (f : File) : Except String Sim :=
  match rd4 false f 0 with
  | none => .error "Error reading header"
  | some size0 =>
    if size0 = 65536 then parseHeaderSw cfg true f
    else if size0 = 256 then parseHeaderSw cfg false f
    else .error "Error reading header"

/-! ### Offsets inside the file and inside a block -/

/-- The seek offset computed in `read_block`: for every block key preceding
`b` in `block_keys`, `block_sizes[key] + 8` is added when the key is in the
dictionary (the `try`/`except` skips keys whose flag is unset); a key
present with size zero still contributes its 8 marker bytes. -/
def readSkip (s : Sim) (b : BKey) : Nat :=
  ((blockKeys.take (bkOrder b)).map (fun k =>
    match blockSizes s k with
    | some sz => sz + 8
    | none => 0)).sum

/-- Modelled from the spec (section 4.3): the byte offset of a block is the
sum of `size + 8` over every PRESENT (size greater than zero) block
preceding it; absent blocks occupy zero bytes.  Kept separate from
`readSkip` so the two can be compared. -/
def specOffset (s : Sim) (b : BKey) : Nat :=
  ((blockKeys.take (bkOrder b)).map (fun k =>
    match blockSizes s k with
    | some sz => if 0 < sz then sz + 8 else 0
    | none => 0)).sum

/-- The bytes one block key occupies on disk (as `_file_check` walks the
file): a present block of positive size takes its payload plus the two
4-byte markers; an absent or zero-size block takes nothing. -/
def blockBytes (s : Sim) (k : BKey) : Nat :=
  match blockSizes s k with
  | some sz => if 0 < sz then sz + 8 else 0
  | none => 0

/-- The `particle_number` dictionary built at the top of `_compute_offset`:
`some` exactly when the particle type is a key of the dictionary for this
block (the block's particle-type domain). -/
def domainCount (s : Sim) (b : BKey) (p : PKey) : Option Nat :=
  if b ∈ [BKey.id, .pos, .vel, .accel, .pot, .tstp] then
    some (s.pnum p)
  else if b ∈ [BKey.u, .rho, .ne, .nh, .hsml, .sfr, .endt] then
    (if p = .gas then some (s.pnum p) else none)
  else if b ∈ [BKey.esn, .esncold, .metals] then
    (if p = .gas ∨ p = .stars then some (s.pnum p) else none)
  else if b = .mass then
    (if floatWordIsZero (s.pmassw p) then
      if s.pnum p ≠ 0 then some (s.pnum p) else none
     else none)
  else if b = .age then
    (if p = .stars then some (s.pnum p) else none)
  else none

/-- The `dim` variable of `_compute_offset` (elements per particle). -/
def blockDim (s : Sim) (b : BKey) : Nat :=
  if b ∈ [BKey.id, .pos, .vel, .accel, .pot, .tstp] then
    (if b ∈ [BKey.pos, .vel, .accel] then 3
     else if b = .id ∧ s.useLongids then 2 else 1)
  else if b ∈ [BKey.esn, .esncold, .metals] then
    (if b = .metals then elementKeys.length else 1)
  else 1

/-- `_compute_offset`: byte offset of the requested type's slice inside the
block, the slice's byte size, and the remaining bytes after it.  `none`
models the `KeyError` raised when the requested particle type is not a key
of the block's `particle_number` dictionary. -/
def computeOffset (s : Sim) (b : BKey) (p : PKey) : Option (Nat × Nat × Nat) :=
  match domainCount s b p with
  | none => none
  | some cnt =>
    let order := pkOrder p
    let off := ((particleKeys.take order).filterMap (domainCount s b)).sum
    let rem := ((particleKeys.drop (order + 1)).filterMap (domainCount s b)).sum
    let dim4 := blockDim s b * 4
    some (off * dim4, cnt * dim4, rem * dim4)

/-! ### `_file_check` -/

/-- The walk of `_file_check`: for each block key in order that is in the
size dictionary with positive size, the 4-byte marker before and after the
block payload must both equal the computed size. -/
def fileCheckAux (s : Sim) (f : File) : List BKey → Nat → Except String Unit
  | [], _ => .ok ()
  | k :: ks, pos =>
    match blockSizes s k with
    | none => fileCheckAux s f ks pos
    | some size =>
      if 0 < size then
        match rd4 s.swap f pos with
        | none => .error "unpack"
        | some c1 =>
          if c1 ≠ size then .error ("Error in block: " ++ bkeyName k)
          else
            match rd4 s.swap f (pos + 4 + size) with
            | none => .error "unpack"
            | some c2 =>
              if c2 ≠ size then .error ("Error in block: " ++ bkeyName k)
              else fileCheckAux s f ks (pos + 4 + size + 4)
      else fileCheckAux s f ks pos

/-- `_file_check` starts the walk at the beginning of the file. -/
def fileCheck (s : Sim) (f : File) : Except String Unit :=
  fileCheckAux s f blockKeys 0

/-! ### `read_block` -/

/-- The body of the `with open(...)` in `read_block`: seek to `readSkip`,
check the leading marker, compute the per-type slice, read it, skip the
remainder, check the trailing marker; returns the raw payload bytes. -/
def readBlockCore (s : Sim) (f : File) (b : BKey) (p : PKey) :
    Except String (List Nat) :=
  match blockSizes s b with
  | none => .error ("KeyError: " ++ bkeyName b)
  | some size =>
    let skip := readSkip s b
    match rd4 s.swap f skip with
    | none => .error "unpack"
    | some lead =>
      if lead ≠ size then .error ("Error reading block: " ++ bkeyName b)
      else
        match computeOffset s b p with
        | none => .error ("KeyError: " ++ pkeyName p)
        | some (off, rsize, rem) =>
          match readBytes f (skip + 4 + off) rsize with
          | none => .error "read"
          | some dat =>
            match rd4 s.swap f (skip + 4 + off + rsize + rem) with
            | none => .error "unpack"
            | some trail =>
              if trail ≠ size then
                .error ("Error reading block: " ++ bkeyName b)
              else .ok dat

/-- Identifier element width: `u4`, or `u8` under the wide-identifier
switch. -/
def idWidth (s : Sim) : Nat := if s.useLongids then 8 else 4

/-- Greedy grouping of a word stream into rows of `dim` entries (the `go`
fuel equals the list length, enough since every step consumes at least one
element for `dim ≥ 1`). -/
def chunkCols (dim : Nat) (ws : List Nat) : List (List Nat) :=
  go ws.length ws
where
  go : Nat → List Nat → List (List Nat)
    | 0, _ => []
    | _, [] => []
    | fuel + 1, w :: tail =>
      (w :: tail).take dim :: go fuel ((w :: tail).drop dim)

/-- `numpy.fromstring`: decode a byte string into fixed-width unsigned
words; the byte count must be a multiple of the element width. -/
def chunksWords (sw : Bool) (width : Nat) (bs : List Nat) :
    Option (List Nat) :=
  if bs.length % width = 0 then
    some ((chunkCols width bs).map (wordOf sw))
  else none

/-- The reshape key list of `read_block`.  Note: the SOURCE tests membership
in `["pos", "vel", "acc"]` here, although the block key for accelerations is
`"accel"`, so the acceleration block is never reshaped. -/
def reshapeList : List String := ["pos", "vel", "acc"]

/-- The `block.shape = shape` step of `read_block`: vector blocks named in
`reshapeList` become `ydim` rows of 3, the metals block `ydim` rows of 12,
everything else stays a flat column (one word per row); a element-count
mismatch raises. -/
def reshapeRows (b : BKey) (ydim : Nat) (words : List Nat) :
    Except String (List (List Nat)) :=
  if bkeyName b ∈ reshapeList then
    (if words.length = ydim * 3 then .ok (chunkCols 3 words)
     else .error "reshape")
  else if b = .metals then
    (if words.length = ydim * elementKeys.length then
      .ok (chunkCols elementKeys.length words)
     else .error "reshape")
  else .ok (words.map (fun w => [w]))

/-- Column names chosen in `read_block` (this list DOES use `"accel"`). -/
def columnsFor (b : BKey) : List String :=
  if b ∈ [BKey.pos, .vel, .accel] then ["x", "y", "z"]
  else if b = .metals then elementKeys
  else [bkeyName b]

/-- Result of `read_block`: a pandas `DataFrame` (or `Series` for the
identifier block, whose index is the default 0.. range). -/
structure PBlock where
  index : List Nat
  columns : List String
  rows : List (List Nat)
deriving DecidableEq, Repr

/-- `read_block("id", p)`: re-reads the header, reads the identifier block
and decodes it at the identifier width; no join is performed. -/
def readBlockId (cfg : Config) (f : File) (p : PKey) :
    Except String (List Nat) :=
  match parseHeader cfg f with
  | .error e => .error e
  | .ok s =>
    match readBlockCore s f .id p with
    | .error e => .error e
    | .ok dat =>
      match chunksWords s.swap (idWidth s) dat with
      | none => .error "fromstring"
      | some words => .ok words

/-- `read_block`: header re-read, marker-checked payload read, decode,
reshape, and (for non-identifier blocks) the join against the identifier
block of the same particle type; a `DataFrame` whose data do not fit the
index length or the column count raises `ValueError`. -/
def readBlock (cfg : Config) (f : File) (b : BKey) (p : PKey) :
    Except String PBlock :=
  match parseHeader cfg f with
  | .error e => .error e
  | .ok s =>
    match readBlockCore s f b p with
    | .error e => .error e
    | .ok dat =>
      let width := if b = .id then idWidth s else 4
      match chunksWords s.swap width dat with
      | none => .error "fromstring"
      | some words =>
        match reshapeRows b (s.pnum p) words with
        | .error e => .error e
        | .ok rows =>
          let columns := columnsFor b
          if b ≠ .id then
            match readBlockId cfg f p with
            | .error e => .error e
            | .ok ids =>
              if rows.length = ids.length ∧
                 (∀ r ∈ rows, r.length = columns.length) then
                .ok ⟨ids, columns, rows⟩
              else .error "ValueError"
          else .ok ⟨List.range rows.length, ["id"], rows⟩

/-! ### `filter_bloc_by_ids` (ParticleIndex) -/

/-- A block already indexed by particle identifier: identifier and row,
in on-disk order (the shape `read_block` returns). -/
abbrev IdBlock := List (Nat × List Nat)

/-- Value of the identifier column at position `k`. -/
def keyOf (ind : List Nat) (k : Nat) : Nat := ind.getD k 0

/-- `numpy.argsort` of the identifier column: the positions `0..n-1`
ordered by ascending identifier value.  (For the unique identifiers of a
`ParticleBlock` every argsort returns the same permutation, so the sort
algorithm used is immaterial; insertion sort is used here.) -/
def argsortNat (ind : List Nat) : List Nat :=
  (List.range ind.length).insertionSort (fun i j => keyOf ind i ≤ keyOf ind j)

/-- `ind.max()`: `none` on an empty column, where numpy raises
"zero-size array to reduction operation maximum". -/
def npMax : List Nat → Option Nat
  | [] => none
  | x :: xs => some (xs.foldl Nat.max x)

/-- `numpy.unique`: sort and remove duplicates. -/
def npUnique (l : List Nat) : List Nat := (l.insertionSort (· ≤ ·)).dedup

/-- `searchsorted` (left insertion point) of `v` into an ascending list. -/
def searchsortedL (sorted : List Nat) (v : Nat) : Nat :=
  sorted.countP (fun x => decide (x < v))

/-- A 4-byte float word is NaN exactly when its exponent bits are all set
and its mantissa is non-zero (the sign bit is irrelevant; infinities have a
zero mantissa and are not NaN). -/
def float32IsNaN (w : Nat) : Bool :=
  (w / 8388608) % 256 == 255 && w % 8388608 != 0

/-- A block row contains a NaN entry (`dropna` removes such rows). -/
def rowHasNaN (row : List Nat) : Bool := row.any float32IsNaN

/-- `filter_bloc_by_ids` with the sorter computed internally (the default
`sorter=[]` path): arg-sorts the identifier column, drops requested ids
above the maximum identifier, binary-searches the rest, deduplicates the
hit positions, gathers those rows and finally applies
`df.loc[ids].dropna()`, which returns rows in the order of the requested
ids and drops both the ids with no exact index match and any genuine row
containing a NaN payload value. -/
def filterBlocByIds (block : IdBlock) (ids : List Nat) :
    Except String IdBlock :=
  let ind : List Nat := block.map Prod.fst
  let sorter : List Nat := argsortNat ind
  match npMax ind with
  | none => .error "zero-size array to reduction operation maximum"
  | some m =>
    let ids2 := ids.filter (fun v => decide (v ≤ m))
    let sortedInd := sorter.map (keyOf ind)
    let hits := ids2.map (searchsortedL sortedInd)
    let hitsU := npUnique hits
    let df := (hitsU.map (fun k => sorter.getD k 0)).filterMap
      (fun j => block.get? j)
    .ok ((ids2.filterMap (fun v => df.find? (fun pr => pr.1 == v))).filter
      (fun pr => !rowHasNaN pr.2))

/-! ### `Subfind._load_ids` -/

/-- The slicing loop of `Subfind._load_ids`: for each subhalo index below
`nsub`, the run `all_ids[suboffset[sub] : suboffset[sub] + sublen[sub]]`
(Python slices clamp at the end of the stream, as `drop`/`take` do). -/
def subfindSliceIds (allIds : List Nat) (suboffset sublen : List Nat)
    (nsub : Nat) : List (List Nat) :=
  (List.range nsub).map (fun sub =>
    (allIds.drop (suboffset.getD sub 0)).take (sublen.getD sub 0))

/-! ### `Fof._load_catalogue` -/

/-- Per-fragment content of a `group_tab` file: the local group count, the
local id count, and the six fixed-shape arrays (only read when the local
group count is positive).  Mass words and centre coordinates are raw float
words. -/
structure FofFragment where
  ngroups : Nat
  nids : Nat
  grouplen : List Nat
  groupoffset : List Nat
  grouplentype : List (List Nat)
  groupmasstype : List (List Nat)
  groupcm : List (List Nat)
  groupsfr : List Nat
deriving DecidableEq, Repr

/-- The concatenated per-group arrays set as attributes at the end of
`Fof._load_catalogue`. -/
structure FofCatalogue where
  grouplen : List Nat
  groupoffset : List Nat
  grouplentype : List (List Nat)
  groupmasstype : List (List Nat)
  groupcm : List (List Nat)
  groupsfr : List Nat
deriving DecidableEq, Repr

/-- One step of the fragment loop in `Fof._load_catalogue`: arrays are read
and concatenated only when the fragment's local group count is positive
(`value` starts empty and is first populated when `totngroups == 0`). -/
def fofStep (acc : Option FofCatalogue) (fr : FofFragment) :
    Option FofCatalogue :=
  if 0 < fr.ngroups then
    match acc with
    | none => some ⟨fr.grouplen, fr.groupoffset, fr.grouplentype,
                    fr.groupmasstype, fr.groupcm, fr.groupsfr⟩
    | some v => some ⟨v.grouplen ++ fr.grouplen,
                      v.groupoffset ++ fr.groupoffset,
                      v.grouplentype ++ fr.grouplentype,
                      v.groupmasstype ++ fr.groupmasstype,
                      v.groupcm ++ fr.groupcm,
                      v.groupsfr ++ fr.groupsfr⟩
  else acc

/-- `Fof._load_catalogue`: fold over the fragments; the final
`setattr(self, key, value[key])` loop raises `KeyError` when no fragment
ever populated `value`. -/
def fofLoadCatalogue (frags : List FofFragment) : Except String FofCatalogue :=
  match frags.foldl fofStep none with
  | none => .error "KeyError: grouplen"
  | some v => .ok v

/-! ### Concrete snapshot files used by the closed theorems -/

/-- Byte `k` (little-endian, least significant first) of a word value. -/
def wordByte (v k : Nat) : Nat := v / 256 ^ k % 256

/-- Little-endian 4-byte encoding of a word value. -/
def u4w (v : Nat) : List Nat :=
  [wordByte v 0, wordByte v 1, wordByte v 2, wordByte v 3]

/-- Little-endian 8-byte encoding of a word value. -/
def u8w (v : Nat) : List Nat :=
  u4w (v % 4294967296) ++ u4w (v / 4294967296)

/-- The file whose bytes are the entries of a (short) list. -/
def bytesOfList (bs : List Nat) : File := fun i => bs.get? i

/-- Concatenation of a file segment of length `n` with a following
segment. -/
def fcat (n : Nat) (a b : File) : File :=
  fun i => if i < n then a i else b (i - n)

/-- The empty tail beyond the end of a file. -/
def fileEnd : File := fun _ => none

/-- A data block record as a byte list: payload bracketed by its two
4-byte size markers. -/
def mkRecord (payload : List Nat) : List Nat :=
  u4w payload.length ++ payload ++ u4w payload.length

/-- A data block record as a file segment (for large payloads given as
byte functions): leading marker, `len` payload bytes, trailing marker,
then the rest of the file. -/
def recSeg (len : Nat) (payload : File) (rest : File) : File :=
  fcat 4 (bytesOfList (u4w len))
    (fcat len payload (fcat 4 (bytesOfList (u4w len)) rest))

/-- A 264-byte little-endian header record with the given particle counts,
raw mass words, flags and fragment count (times, cosmology, totals and
high words zeroed: no block-layout decision reads them). -/
def mkHeaderBytes (np : List Nat) (mw : List Nat)
    (fsfr ffb fcool fnum fage fmet : Nat) : List Nat :=
  u4w 256 ++ (np.map u4w).flatten ++ (mw.map u8w).flatten ++
  u8w 0 ++ u8w 0 ++
  u4w fsfr ++ u4w ffb ++ (List.replicate 6 (u4w 0)).flatten ++
  u4w fcool ++ u4w fnum ++ u8w 0 ++ u8w 0 ++ u8w 0 ++ u8w 0 ++
  u4w fage ++ u4w fmet ++ (List.replicate 6 (u4w 0)).flatten ++ u4w 0 ++
  List.replicate 60 0 ++ u4w 256

/-- A non-zero raw double word (the bit pattern of 1.0). -/
def mwOne : Nat := 4607182418800017408

/-! #### The claim-C1 scenario: gas 100, halo 50, stars 10; cooling, sfr,
stellar-age, metals flags set; narrow identifiers; single fragment. -/

def cfgC1 : Config := ⟨false, false, false, false, false⟩

def npC1 : List Nat := [100, 50, 0, 0, 10, 0]

def mwC1 : List Nat := List.replicate 6 mwOne

def simC1 : Sim :=
  ⟨false, npC1, mwC1, 1, 0, 1, 1, 1, 0, 1, false, false, false, false, false⟩

/-- The payload word stored for row `r`, column `c` of the pos block. -/
def posWord (r c : Nat) : Nat := 1000 + 3 * r + c

/-- The pos payload as a byte function: byte `j` belongs to word
`j / 4` of row `j / 12`, column `j % 12 / 4`. -/
def posPayloadC1 : File :=
  fun j => some (wordByte (posWord (j / 12) (j % 12 / 4)) (j % 4))

/-- The identifier payload as a byte function: particle `r` has
identifier `10000 + r`. -/
def idPayloadC1 : File :=
  fun j => some (wordByte (10000 + j / 4) (j % 4))

/-- A C1 snapshot fragment up to and including the identifier block (the
only records `read_block("pos", "stars")` touches): header, then the pos,
vel and id records. -/
def fileC1 : File :=
  fcat 264 (bytesOfList (mkHeaderBytes npC1 mwC1 1 0 1 1 1 1))
    (recSeg 1920 posPayloadC1
      (recSeg 1920 (fun _ => some 0)
        (recSeg 640 idPayloadC1 fileEnd)))

/-! #### A gas-only snapshot whose per-type masses are all non-zero, so the
mass block has computed size zero while its key stays in `block_sizes`. -/

def cfgB : Config := ⟨false, false, false, false, false⟩

def npB : List Nat := [2, 0, 0, 0, 0, 0]

def mwB : List Nat := List.replicate 6 mwOne

def simB : Sim :=
  ⟨false, npB, mwB, 0, 0, 0, 0, 0, 0, 1, false, false, false, false, false⟩

/-- The on-disk layout that `_file_check` accepts for `simB`: header, pos,
vel, id, u, rho, hsml records and NO bytes for the size-zero mass block. -/
def fileB : File :=
  bytesOfList
    (mkHeaderBytes npB mwB 0 0 0 1 0 0 ++
     mkRecord (List.replicate 24 7) ++
     mkRecord (List.replicate 24 7) ++
     mkRecord (u4w 1 ++ u4w 2) ++
     mkRecord (u4w 100 ++ u4w 101) ++
     mkRecord (u4w 110 ++ u4w 111) ++
     mkRecord (u4w 120 ++ u4w 121))

/-- `fileB` with the first byte of the pos block's leading record marker
corrupted (24 becomes 25). -/
def fileBc : File := fun i => if i = 264 then some 25 else fileB i

/-! #### A healthy aligned snapshot: gas 2 (non-zero header mass), halo 1
(zero header mass, so a one-row mass block), stars count 0 with zero header
mass. -/

def cfgG : Config := ⟨false, false, false, false, false⟩

def npG : List Nat := [2, 1, 0, 0, 0, 0]

def mwG : List Nat := [mwOne, 0, mwOne, mwOne, 0, mwOne]

def simG : Sim :=
  ⟨false, npG, mwG, 0, 0, 0, 0, 0, 0, 1, false, false, false, false, false⟩

def fileGBytes : List Nat :=
  mkHeaderBytes npG mwG 0 0 0 1 0 0 ++
  mkRecord (((List.range 9).map (fun k => u4w (300 + k))).flatten) ++
  mkRecord (List.replicate 36 9) ++
  mkRecord (u4w 1 ++ u4w 2 ++ u4w 3) ++
  mkRecord (u4w 5) ++
  mkRecord (u4w 100 ++ u4w 101) ++
  mkRecord (u4w 110 ++ u4w 111) ++
  mkRecord (u4w 120 ++ u4w 121)

def fileG : File := bytesOfList fileGBytes

/-! #### The same snapshot with the acceleration block declared and its
record appended after hsml. -/

def cfgA : Config := ⟨false, true, false, false, false⟩

def simA : Sim :=
  ⟨false, npG, mwG, 0, 0, 0, 0, 0, 0, 1, false, true, false, false, false⟩

def fileA : File :=
  bytesOfList
    (fileGBytes ++ mkRecord (((List.range 9).map (fun k => u4w (200 + k))).flatten))

/-- A small identifier-indexed block for the filter witness. -/
def blockW : IdBlock := [(5, [50]), (2, [20]), (9, [90])]

deriving instance DecidableEq for Except

/-! ## Theorems -/

set_option maxRecDepth 40000 in
/-- Claim C1: for the single-fragment snapshot with particle counts
gas 100, halo 50, disk 0, bulge 0, stars 10, bndry 0, narrow identifiers
and the cooling, sfr, stellar-age and metals flags set, the computed block
sizes are pos 1920, id 640, u = rho = hsml = ne = nh = sfr = 400, age 40
and metals 5280 bytes, and reading block pos for particle type stars
returns exactly 10 rows of 3 columns taken from the pos payload at an
offset of 150 rows (100 gas plus 50 halo, i.e. 1800 bytes). -/
theorem C1_concrete_scenario :
    parseHeader cfgC1 fileC1 = .ok simC1 ∧
    blockSizes simC1 .pos = some 1920 ∧
    blockSizes simC1 .id = some 640 ∧
    blockSizes simC1 .u = some 400 ∧
    blockSizes simC1 .rho = some 400 ∧
    blockSizes simC1 .hsml = some 400 ∧
    blockSizes simC1 .ne = some 400 ∧
    blockSizes simC1 .nh = some 400 ∧
    blockSizes simC1 .sfr = some 400 ∧
    blockSizes simC1 .age = some 40 ∧
    blockSizes simC1 .metals = some 5280 ∧
    computeOffset simC1 .pos .stars = some (1800, 120, 0) ∧
    readBlock cfgC1 fileC1 .pos .stars =
      .ok ⟨(List.range 10).map (fun r => 10000 + (150 + r)), ["x", "y", "z"],
           (List.range 10).map (fun r =>
             (List.range 3).map (fun c => posWord (150 + r) c))⟩ := by
  decide

set_option maxRecDepth 40000 in
/-- Claim C2 (code bug): `read_block` adds `size + 8` to the seek offset
for every key in `block_sizes`, including keys whose computed size is zero,
while `_file_check` (and the GADGET layout) give a zero-size block no bytes
at all.  For the gas-only snapshot `simB` (all per-type masses non-zero, so
the mass block has size 0 but keeps its dictionary key), the u block lies
at byte 344 of a file accepted by `_file_check`, yet `read_block` seeks to
352 and fails. -/
theorem C2_read_offset_bug :
    readSkip simB .u = specOffset simB .u + 8 ∧
    specOffset simB .u = 344 ∧
    blockSizes simB .mass = some 0 ∧
    parseHeader cfgB fileB = .ok simB ∧
    fileCheck simB fileB = .ok () ∧
    (readBlock cfgB fileB .u .gas).isOk = false := by
  decide

set_option maxRecDepth 40000 in
/-- Claim C5 (counterexample): on the healthy snapshot `fileG` (header
parses, `_file_check` passes), requesting block u for particle type stars —
a block/type combination with zero particles, stars being outside the
u block's domain — raises `KeyError` instead of returning an empty
result. -/
theorem C5_counterexample :
    parseHeader cfgG fileG = .ok simG ∧
    fileCheck simG fileG = .ok () ∧
    simG.pnum .stars = 0 ∧
    domainCount simG .u .stars = none ∧
    readBlock cfgG fileG .u .stars = .error "KeyError: stars" := by
  decide

set_option maxRecDepth 40000 in
/-- Claim C6 (counterexample): in `simG` the stars type has a zero per-type
header mass but also a zero particle count, and it is NOT in the mass-block
domain (`_compute_offset` also requires a non-zero count), so reading the
mass block for stars raises instead; this refutes "a type with zero header
mass always is [in the domain]". -/
theorem C6_counterexample :
    floatWordIsZero (simG.pmassw .stars) = true ∧
    simG.pnum .stars = 0 ∧
    domainCount simG .mass .stars = none ∧
    readBlock cfgG fileG .mass .stars = .error "KeyError: stars" := by
  decide

set_option maxRecDepth 40000 in
/-- Claim C7 (code bug): the reshape test of `read_block` checks membership
in `["pos", "vel", "acc"]` although the acceleration block's key is
`"accel"`, so the acceleration payload is never reshaped into rows of 3 and
the subsequent 3-column DataFrame construction fails.  On the healthy
snapshot `fileA` (acceleration record present and `_file_check` passing),
reading pos returns 2 rows of 3, while reading accel fails. -/
theorem C7_accel_reshape_bug :
    bkeyName .accel ∉ reshapeList ∧
    "acc" ∈ reshapeList ∧
    columnsFor .accel = ["x", "y", "z"] ∧
    fileCheck simA fileA = .ok () ∧
    readBlock cfgA fileA .pos .gas =
      .ok ⟨[1, 2], ["x", "y", "z"], [[300, 301, 302], [303, 304, 305]]⟩ ∧
    readBlock cfgA fileA .accel .gas = .error "ValueError" := by
  decide

/-- Claim C8 (counterexample): `filter_bloc_by_ids` applied to an empty
block and an empty identifier list raises (numpy `max` of the empty
identifier column) instead of returning an empty result. -/
theorem C8_counterexample :
    filterBlocByIds ([] : IdBlock) [] =
      .error "zero-size array to reduction operation maximum" := by
  decide

/-- Peeling the second header-read chain: on success the trailing record
size was read at byte 260. -/
theorem headerPart2_tail {sw : Bool} {f : File}
    {q : Nat × Nat × Nat × Nat × Nat} (h : headerPart2 sw f = some q) :
    rd4 sw f 260 = some q.2.2.2.2 := by
  simp only [headerPart2, Option.bind_eq_bind', Option.bind_eq_some',
    Option.pure_def, Option.some.injEq] at h
  obtain ⟨fnum, h1, box, h2, om, h3, ol, h4, hh, h5, fage, h6, fmet, h7,
    hw, h8, fentr, h9, tail, h10, heq⟩ := h
  subst heq
  exact h10

/-- On a successful header-field read, the constructed state carries the
detected byte order and the returned trailing size was read at byte 260. -/
theorem headerCore_ok {cfg : Config} {sw : Bool} {f : File} {s : Sim}
    {tail : Nat} (h : headerCore cfg sw f = some (s, tail)) :
    s.swap = sw ∧ rd4 sw f 260 = some tail := by
  simp only [headerCore, Option.bind_eq_bind', Option.bind_eq_some',
    Option.pure_def, Option.some.injEq] at h
  obtain ⟨⟨np, mw, fsfr, ffb, fcool⟩, h1, ⟨fnum, fage, fmet, fentr, tl⟩,
    h2, heq⟩ := h
  have ht := headerPart2_tail h2
  rw [Prod.mk.injEq] at heq
  obtain ⟨hs, htl⟩ := heq
  subst hs; subst htl
  exact ⟨rfl, ht⟩

/-- A successful header parse fixes the byte order and forces the trailing
record size, read at byte 260 under that order, to be 256. -/
theorem parseHeaderSw_ok {cfg : Config} {sw : Bool} {f : File} {s : Sim}
    (h : parseHeaderSw cfg sw f = .ok s) :
    s.swap = sw ∧ rd4 sw f 260 = some 256 := by
  unfold parseHeaderSw at h
  cases hc : headerCore cfg sw f with
  | none => rw [hc] at h; exact absurd h (by simp)
  | some st =>
    obtain ⟨s2, tail⟩ := st
    rw [hc] at h
    by_cases ht : tail = 256
    · subst ht
      simp only [if_true, Except.ok.injEq, reduceIte] at h
      subst h
      exact headerCore_ok hc
    · simp [ht] at h

/-- Over valid bytes, a leading word that reads as 65536 in native
(little-endian) order reads as 256 in reversed order. -/
theorem rd4_byteswap {f : File} (hf : ∀ i, i < 4 → optLt256 (f i) = true)
    (h : rd4 false f 0 = some 65536) : rd4 true f 0 = some 256 := by
  cases h0 : f 0 with
  | none => simp [rd4, readBytes, h0] at h
  | some b0 =>
    cases h1 : f 1 with
    | none => simp [rd4, readBytes, h0, h1] at h
    | some b1 =>
      cases h2 : f 2 with
      | none => simp [rd4, readBytes, h0, h1, h2] at h
      | some b2 =>
        cases h3 : f 3 with
        | none => simp [rd4, readBytes, h0, h1, h2, h3] at h
        | some b3 =>
          have l0 := hf 0 (by omega)
          have l1 := hf 1 (by omega)
          have l2 := hf 2 (by omega)
          rw [h0] at l0; rw [h1] at l1; rw [h2] at l2
          simp only [optLt256, decide_eq_true_eq] at l0 l1 l2
          simp [rd4, readBytes, h0, h1, h2, h3, wordOf, wordLE] at h ⊢
          omega


/-- Claim C4: header parsing reads the 4-byte sentinel; 256 under native
order means little-endian, the byte-swapped form 65536 means big-endian,
and any other value is a fatal format error; after the 256-byte header
region the trailing record size (at byte 260, read under the detected
order) must equal the leading one (which also reads as 256 under the
detected order), or a fatal error is raised. -/
theorem C4_header_sentinel (cfg : Config) (f : File)
    (hf : ∀ i, i < 4 → optLt256 (f i) = true) :
    (∀ s, parseHeader cfg f = .ok s →
      ((rd4 false f 0 = some 256 ∧ s.swap = false) ∨
       (rd4 false f 0 = some 65536 ∧ s.swap = true)) ∧
      rd4 s.swap f 0 = some 256 ∧ rd4 s.swap f 260 = some 256) ∧
    (∀ v, rd4 false f 0 = some v → v ≠ 256 → v ≠ 65536 →
      parseHeader cfg f = .error "Error reading header") ∧
    (rd4 false f 0 = some 256 → rd4 false f 260 ≠ some 256 →
      (parseHeader cfg f).isOk = false) ∧
    (rd4 false f 0 = some 65536 → rd4 true f 260 ≠ some 256 →
      (parseHeader cfg f).isOk = false) := by
  refine ⟨?_, ?_, ?_, ?_⟩
  · intro s hs
    unfold parseHeader at hs
    cases h0 : rd4 false f 0 with
    | none => simp [h0] at hs
    | some v =>
      rw [h0] at hs
      dsimp only at hs
      by_cases hv : v = 65536
      · subst hv
        rw [if_pos rfl] at hs
        obtain ⟨hsw, htail⟩ := parseHeaderSw_ok hs
        refine ⟨Or.inr ⟨rfl, hsw⟩, ?_, ?_⟩
        · rw [hsw]; exact rd4_byteswap hf h0
        · rw [hsw]; exact htail
      · by_cases hv2 : v = 256
        · subst hv2
          rw [if_neg hv, if_pos rfl] at hs
          obtain ⟨hsw, htail⟩ := parseHeaderSw_ok hs
          refine ⟨Or.inl ⟨rfl, hsw⟩, ?_, ?_⟩
          · rw [hsw]; exact h0
          · rw [hsw]; exact htail
        · rw [if_neg hv, if_neg hv2] at hs
          exact absurd hs (by simp)
  · intro v hv h256 h65536
    unfold parseHeader
    rw [hv]
    dsimp only
    rw [if_neg h65536, if_neg h256]
  · intro h0 htail
    unfold parseHeader
    rw [h0]
    dsimp only
    rw [if_neg (by omega), if_pos rfl]
    cases hr : parseHeaderSw cfg false f with
    | error e => rfl
    | ok s =>
      obtain ⟨hsw, ht⟩ := parseHeaderSw_ok hr
      exact absurd ht htail
  · intro h0 htail
    unfold parseHeader
    rw [h0]
    dsimp only
    rw [if_pos rfl]
    cases hr : parseHeaderSw cfg true f with
    | error e => rfl
    | ok s =>
      obtain ⟨hsw, ht⟩ := parseHeaderSw_ok hr
      exact absurd ht htail

/-- Claim C4 (witness): the little-endian fragment `fileC1`. -/
theorem C4_header_sentinel_witness :
    ((rd4 false fileC1 0 = some 256 ∧ simC1.swap = false) ∨
     (rd4 false fileC1 0 = some 65536 ∧ simC1.swap = true)) ∧
    rd4 simC1.swap fileC1 0 = some 256 ∧
    rd4 simC1.swap fileC1 260 = some 256 :=
  (C4_header_sentinel cfgC1 fileC1 (by decide)).1 simC1 (by decide)

/-- A successful `f.read(n)` returns exactly `n` bytes. -/
theorem readBytes_length {f : File} {pos n : Nat} {l : List Nat}
    (h : readBytes f pos n = some l) : l.length = n := by
  induction n generalizing pos l with
  | zero =>
    simp only [readBytes, Option.some.injEq] at h
    subst h; rfl
  | succ k ih =>
    simp only [readBytes, Option.bind_eq_bind', Option.bind_eq_some',
      Option.pure_def, Option.some.injEq] at h
    obtain ⟨b, hb, rest, hrest, heq⟩ := h
    subst heq
    simp [ih hrest]

/-- When the requested particle type is not a key of the block's
`particle_number` dictionary, the block-read core never succeeds (it
raises `KeyError` at `_compute_offset`, unless an earlier marker check or
short read already raised). -/
theorem readBlockCore_dc_none {s : Sim} {f : File} {b : BKey} {p : PKey}
    (hdc : domainCount s b p = none) :
    (readBlockCore s f b p).isOk = false := by
  have hco : computeOffset s b p = none := by simp [computeOffset, hdc]
  simp only [readBlockCore]
  cases hbs : blockSizes s b with
  | none => rfl
  | some size =>
    dsimp only
    cases hl : rd4 s.swap f (readSkip s b) with
    | none => rfl
    | some lead =>
      dsimp only
      by_cases hle : lead ≠ size
      · rw [if_pos hle]; rfl
      · rw [if_neg hle, hco]; rfl

/-- A successful block-read core went through `_compute_offset` and read
exactly the requested slice. -/
theorem readBlockCore_ok_elim {s : Sim} {f : File} {b : BKey} {p : PKey}
    {dat : List Nat} (h : readBlockCore s f b p = .ok dat) :
    ∃ off rsize rem, computeOffset s b p = some (off, rsize, rem) ∧
      readBytes f (readSkip s b + 4 + off) rsize = some dat := by
  simp only [readBlockCore] at h
  cases hbs : blockSizes s b <;> rw [hbs] at h
  · exact absurd h (by simp)
  rename_i size
  dsimp only at h
  cases hl : rd4 s.swap f (readSkip s b) <;> rw [hl] at h
  · exact absurd h (by simp)
  rename_i lead
  dsimp only at h
  by_cases hle : lead ≠ size
  · rw [if_pos hle] at h; exact absurd h (by simp)
  rw [if_neg hle] at h
  cases hco : computeOffset s b p <;> rw [hco] at h
  · exact absurd h (by simp)
  rename_i tri
  obtain ⟨off, rsize, rem⟩ := tri
  dsimp only at h
  cases hrb : readBytes f (readSkip s b + 4 + off) rsize <;> rw [hrb] at h
  · exact absurd h (by simp)
  rename_i dat2
  dsimp only at h
  cases ht : rd4 s.swap f (readSkip s b + 4 + off + rsize + rem) <;>
    rw [ht] at h
  · exact absurd h (by simp)
  rename_i trail
  dsimp only at h
  by_cases htr : trail ≠ size
  · rw [if_pos htr] at h; exact absurd h (by simp)
  rw [if_neg htr] at h
  simp only [Except.ok.injEq] at h
  subst h
  exact ⟨off, rsize, rem, rfl, hrb⟩

/-- Reshaping an empty word stream yields no rows (or an error when the
declared row count does not match). -/
theorem reshapeRows_nil (b : BKey) (ydim : Nat) :
    reshapeRows b ydim [] = .ok [] ∨
      ∃ e, reshapeRows b ydim [] = .error e := by
  unfold reshapeRows
  split_ifs <;> simp [chunkCols, chunkCols.go]


/-- Claim C5 (amended): for a parsed header, a request for a particle type
OUTSIDE the block's domain makes `read_block` fail (with `KeyError`, or an
earlier marker error), while a request for an in-domain type with zero
particles that succeeds returns an empty result (no rows). -/
theorem C5_zero_particle_requests (cfg : Config) (f : File) (b : BKey)
    (p : PKey) (s : Sim) (hs : parseHeader cfg f = .ok s) :
    (domainCount s b p = none → (readBlock cfg f b p).isOk = false) ∧
    (∀ pb, readBlock cfg f b p = .ok pb → domainCount s b p = some 0 →
      pb.rows = []) := by
  constructor
  · intro hdc
    have hcf : (readBlockCore s f b p).isOk = false := readBlockCore_dc_none hdc
    simp only [readBlock, hs]
    cases hcore : readBlockCore s f b p with
    | error e => rfl
    | ok dat => rw [hcore] at hcf; simp [Except.isOk, Except.toBool] at hcf
  · intro pb hpb hdc
    simp only [readBlock, hs] at hpb
    cases hcore : readBlockCore s f b p with
    | error e => rw [hcore] at hpb; simp at hpb
    | ok dat =>
      rw [hcore] at hpb
      dsimp only at hpb
      obtain ⟨off, rsize, rem, hco, hrb⟩ := readBlockCore_ok_elim hcore
      have hco2 := hco
      simp only [computeOffset, hdc, Nat.zero_mul, Option.some.injEq,
        Prod.mk.injEq] at hco2
      obtain ⟨h1, h2, h3⟩ := hco2
      have hlen := readBytes_length hrb
      rw [← h2] at hlen
      have hdat : dat = [] := List.length_eq_zero.mp hlen
      subst hdat
      have hcw : chunksWords s.swap (if b = .id then idWidth s else 4) []
          = some [] := by
        simp [chunksWords, chunkCols, chunkCols.go]
      rw [hcw] at hpb
      dsimp only at hpb
      rcases reshapeRows_nil b (s.pnum p) with hre | ⟨e, hre⟩
      · rw [hre] at hpb
        dsimp only at hpb
        by_cases hid : b = .id
        · subst hid
          simp only [ne_eq, not_true_eq_false, if_false, reduceIte,
            Except.ok.injEq] at hpb
          rw [← hpb]
        · rw [if_pos hid] at hpb
          cases hbi : readBlockId cfg f p with
          | error e2 => rw [hbi] at hpb; simp at hpb
          | ok ids =>
            rw [hbi] at hpb
            dsimp only at hpb
            split_ifs at hpb with hck
            simp only [Except.ok.injEq] at hpb
            rw [← hpb]
      · rw [hre] at hpb
        simp at hpb


/-- Claim C5 (amended, witness): on the healthy snapshot `fileG`, the
request for block u and particle type stars fails. -/
theorem C5_zero_particle_requests_witness :
    (readBlock cfgG fileG .u .stars).isOk = false :=
  (C5_zero_particle_requests cfgG fileG .u .stars simG (by decide)).1
    (by decide)


/-- Summing a filterMap of naturals equals summing the values with absent
entries counted as zero. -/
theorem sum_filterMap_getD {α : Type} (f : α → Option Nat) (l : List α) :
    (l.filterMap f).sum = (l.map (fun a => (f a).getD 0)).sum := by
  induction l with
  | nil => rfl
  | cons a t ih =>
    cases hf : f a <;> simp [List.filterMap_cons, hf, ih]

/-- The mass-block domain count of one particle type, in the form used by
`mass_number`. -/
theorem massTerm (s : Sim) (k : PKey) :
    (domainCount s .mass k).getD 0 =
      (if s.pnum k ≠ 0 ∧ floatWordIsZero (s.pmassw k) then s.pnum k else 0) := by
  simp only [domainCount]
  split_ifs with h1 h2 h3 h4 h5 h6 h7 <;> simp_all

/-- For a block that has a non-empty domain, the total of the domain
counts times the element width reproduces the computed block size. -/
theorem domainSum_size {s : Sim} {b : BKey} {p : PKey} {cnt sz : Nat}
    (hdc : domainCount s b p = some cnt) (hsz : blockSizes s b = some sz) :
    ((particleKeys.map (fun k => (domainCount s b k).getD 0)).sum)
      * (blockDim s b * 4) = sz := by
  cases b
  case header => simp [domainCount] at hdc
  case pos =>
    simp only [blockSizes, Option.some.injEq] at hsz
    subst hsz
    simp [domainCount, blockDim, particleKeys, totalNumber]
    ring
  case vel =>
    simp only [blockSizes, Option.some.injEq] at hsz
    subst hsz
    simp [domainCount, blockDim, particleKeys, totalNumber]
    ring
  case id =>
    simp only [blockSizes] at hsz
    cases hul : s.useLongids
    · simp [hul] at hsz
      subst hsz
      simp [domainCount, blockDim, particleKeys, totalNumber, hul]
    · simp [hul] at hsz
      subst hsz
      simp [domainCount, blockDim, particleKeys, totalNumber, hul]
      ring
  case mass =>
    simp only [blockSizes, Option.some.injEq] at hsz
    subst hsz
    simp only [massTerm]
    simp [massNumber, blockDim, particleKeys]
  case u =>
    simp only [blockSizes, Option.some.injEq] at hsz
    subst hsz
    simp [domainCount, blockDim, particleKeys]
  case rho =>
    simp only [blockSizes, Option.some.injEq] at hsz
    subst hsz
    simp [domainCount, blockDim, particleKeys]
  case hsml =>
    simp only [blockSizes, Option.some.injEq] at hsz
    subst hsz
    simp [domainCount, blockDim, particleKeys]
  case ne =>
    simp only [blockSizes] at hsz
    split_ifs at hsz with hc
    simp only [Option.some.injEq] at hsz
    subst hsz
    simp [domainCount, blockDim, particleKeys]
  case nh =>
    simp only [blockSizes] at hsz
    split_ifs at hsz with hc
    simp only [Option.some.injEq] at hsz
    subst hsz
    simp [domainCount, blockDim, particleKeys]
  case sfr =>
    simp only [blockSizes] at hsz
    split_ifs at hsz with hc
    simp only [Option.some.injEq] at hsz
    subst hsz
    simp [domainCount, blockDim, particleKeys]
  case age =>
    simp only [blockSizes] at hsz
    split_ifs at hsz with hc
    simp only [Option.some.injEq] at hsz
    subst hsz
    simp [domainCount, blockDim, particleKeys]
  case metals =>
    simp only [blockSizes] at hsz
    split_ifs at hsz with hc
    simp only [Option.some.injEq] at hsz
    subst hsz
    simp [domainCount, blockDim, particleKeys, elementKeys]
    ring
  case pot =>
    simp only [blockSizes] at hsz
    split_ifs at hsz with hc
    simp only [Option.some.injEq] at hsz
    subst hsz
    simp [domainCount, blockDim, particleKeys, totalNumber]
  case accel =>
    simp only [blockSizes] at hsz
    split_ifs at hsz with hc
    simp only [Option.some.injEq] at hsz
    subst hsz
    simp [domainCount, blockDim, particleKeys, totalNumber]
    ring
  case endt =>
    simp only [blockSizes] at hsz
    split_ifs at hsz with hc
    simp only [Option.some.injEq] at hsz
    subst hsz
    simp [domainCount, blockDim, particleKeys]
  case tstp =>
    simp only [blockSizes] at hsz
    split_ifs at hsz with hc
    simp only [Option.some.injEq] at hsz
    subst hsz
    simp [domainCount, blockDim, particleKeys, totalNumber]
  case esn =>
    simp only [blockSizes] at hsz
    split_ifs at hsz with hc
    simp only [Option.some.injEq] at hsz
    subst hsz
    simp [domainCount, blockDim, particleKeys]
    ring
  case esncold =>
    simp only [blockSizes] at hsz
    split_ifs at hsz with hc
    simp only [Option.some.injEq] at hsz
    subst hsz
    simp [domainCount, blockDim, particleKeys]
    ring


/-- Splitting the per-type domain sum at the requested particle type. -/
theorem domain_decomp {s : Sim} {b : BKey} {p : PKey} {cnt : Nat}
    (hdc : domainCount s b p = some cnt) :
    ((particleKeys.take (pkOrder p)).filterMap (domainCount s b)).sum + cnt +
      ((particleKeys.drop (pkOrder p + 1)).filterMap (domainCount s b)).sum =
    (particleKeys.map (fun k => (domainCount s b k).getD 0)).sum := by
  cases p <;>
    simp [particleKeys, pkOrder, sum_filterMap_getD, hdc] <;> omega

/-- `_compute_offset` partitions the block: offset plus slice size plus
remainder equals the computed block size. -/
theorem computeOffset_sum {s : Sim} {b : BKey} {p : PKey} {o r m sz : Nat}
    (hco : computeOffset s b p = some (o, r, m))
    (hsz : blockSizes s b = some sz) : o + r + m = sz := by
  simp only [computeOffset] at hco
  cases hdc : domainCount s b p <;> rw [hdc] at hco
  · exact absurd hco (by simp)
  rename_i cnt
  dsimp only at hco
  simp only [Option.some.injEq, Prod.mk.injEq] at hco
  obtain ⟨ho, hr, hm⟩ := hco
  subst ho; subst hr; subst hm
  have hdec := domain_decomp hdc
  have hds := domainSum_size hdc hsz
  calc ((particleKeys.take (pkOrder p)).filterMap (domainCount s b)).sum *
          (blockDim s b * 4) +
        cnt * (blockDim s b * 4) +
        ((particleKeys.drop (pkOrder p + 1)).filterMap
          (domainCount s b)).sum * (blockDim s b * 4)
      = (((particleKeys.take (pkOrder p)).filterMap (domainCount s b)).sum +
          cnt +
          ((particleKeys.drop (pkOrder p + 1)).filterMap
            (domainCount s b)).sum) * (blockDim s b * 4) := by ring
    _ = (particleKeys.map (fun k => (domainCount s b k).getD 0)).sum *
          (blockDim s b * 4) := by rw [hdec]
    _ = sz := hds


/-- The `_file_check` walk: when it succeeds, every present block of
positive size has its leading and trailing 4-byte markers equal to the
computed size, at the offset obtained by summing size + 8 over the
preceding present blocks only. -/
theorem fileCheckAux_markers {s : Sim} {f : File} :
    ∀ (ks : List BKey) (pos : Nat), fileCheckAux s f ks pos = .ok () →
      ∀ b ∈ ks, ∀ sz, blockSizes s b = some sz → 0 < sz →
        rd4 s.swap f
          (pos + ((ks.takeWhile (fun k => k ≠ b)).map (blockBytes s)).sum)
          = some sz ∧
        rd4 s.swap f
          (pos + ((ks.takeWhile (fun k => k ≠ b)).map (blockBytes s)).sum
            + 4 + sz) = some sz := by
  intro ks
  induction ks with
  | nil => intro pos h b hb; simp at hb
  | cons k ks ih =>
    intro pos h b hb sz hsz hpos
    simp only [fileCheckAux] at h
    cases hbk : blockSizes s k with
    | none =>
      rw [hbk] at h
      by_cases hbeq : b = k
      · subst hbeq; rw [hbk] at hsz; exact absurd hsz (by simp)
      · have hb2 : b ∈ ks := by
          cases hb with
          | head => exact absurd rfl hbeq
          | tail _ hmem => exact hmem
        have hne : k ≠ b := fun hh => hbeq hh.symm
        have htw : (k :: ks).takeWhile (fun x => decide (x ≠ b))
            = k :: ks.takeWhile (fun x => decide (x ≠ b)) := by
          simp [List.takeWhile_cons, hne]
        rw [htw]
        simp only [List.map_cons, List.sum_cons]
        have hcontrib : blockBytes s k = 0 := by simp [blockBytes, hbk]
        rw [hcontrib]
        have hres := ih pos h b hb2 sz hsz hpos
        simpa using hres
    | some size =>
      rw [hbk] at h
      dsimp only at h
      by_cases hlt : 0 < size
      · rw [if_pos hlt] at h
        cases hc1 : rd4 s.swap f pos <;> rw [hc1] at h
        · exact absurd h (by simp)
        rename_i c1
        dsimp only at h
        by_cases hc1e : c1 ≠ size
        · rw [if_pos hc1e] at h; exact absurd h (by simp)
        rw [if_neg hc1e] at h
        push_neg at hc1e
        cases hc2 : rd4 s.swap f (pos + 4 + size) <;> rw [hc2] at h
        · exact absurd h (by simp)
        rename_i c2
        dsimp only at h
        by_cases hc2e : c2 ≠ size
        · rw [if_pos hc2e] at h; exact absurd h (by simp)
        rw [if_neg hc2e] at h
        push_neg at hc2e
        by_cases hbeq : b = k
        · subst hbeq
          rw [hbk] at hsz
          simp only [Option.some.injEq] at hsz
          subst hsz
          have htw : (b :: ks).takeWhile (fun x => decide (x ≠ b)) = [] := by
            simp [List.takeWhile_cons]
          rw [htw]
          simp only [List.map_nil, List.sum_nil, Nat.add_zero]
          subst hc1e
          subst hc2e
          exact ⟨hc1, hc2⟩
        · have hb2 : b ∈ ks := by
            cases hb with
            | head => exact absurd rfl hbeq
            | tail _ hmem => exact hmem
          have hne : k ≠ b := fun hh => hbeq hh.symm
          have htw : (k :: ks).takeWhile (fun x => decide (x ≠ b))
              = k :: ks.takeWhile (fun x => decide (x ≠ b)) := by
            simp [List.takeWhile_cons, hne]
          rw [htw]
          simp only [List.map_cons, List.sum_cons]
          have hcontrib : blockBytes s k = size + 8 := by
            simp [blockBytes, hbk, hlt]
          rw [hcontrib]
          have hres := ih (pos + 4 + size + 4) h b hb2 sz hsz hpos
          have he1 : pos + (size + 8 +
              ((ks.takeWhile (fun x => decide (x ≠ b))).map
                (blockBytes s)).sum)
              = pos + 4 + size + 4 +
              ((ks.takeWhile (fun x => decide (x ≠ b))).map
                (blockBytes s)).sum := by omega
          rw [he1]
          exact hres
      · rw [if_neg hlt] at h
        by_cases hbeq : b = k
        · subst hbeq
          rw [hbk] at hsz
          simp only [Option.some.injEq] at hsz
          subst hsz
          exact absurd hpos hlt
        · have hb2 : b ∈ ks := by
            cases hb with
            | head => exact absurd rfl hbeq
            | tail _ hmem => exact hmem
          have hne : k ≠ b := fun hh => hbeq hh.symm
          have htw : (k :: ks).takeWhile (fun x => decide (x ≠ b))
              = k :: ks.takeWhile (fun x => decide (x ≠ b)) := by
            simp [List.takeWhile_cons, hne]
          rw [htw]
          simp only [List.map_cons, List.sum_cons]
          have hcontrib : blockBytes s k = 0 := by
            simp [blockBytes, hbk, hlt]
          rw [hcontrib]
          have hres := ih pos h b hb2 sz hsz hpos
          simpa using hres


/-- A successful block read saw a leading marker at `readSkip` and a
trailing marker 4 + size bytes later, both equal to the computed size. -/
theorem readBlockCore_ok_markers {s : Sim} {f : File} {b : BKey} {p : PKey}
    {dat : List Nat} {sz : Nat}
    (h : readBlockCore s f b p = .ok dat) (hsz : blockSizes s b = some sz) :
    rd4 s.swap f (readSkip s b) = some sz ∧
    rd4 s.swap f (readSkip s b + 4 + sz) = some sz := by
  simp only [readBlockCore] at h
  rw [hsz] at h
  dsimp only at h
  split at h
  · exact absurd h (by simp)
  rename_i lead hl
  split at h
  · exact absurd h (by simp)
  rename_i hle
  push_neg at hle
  split at h
  · exact absurd h (by simp)
  rename_i off rsize rem hco
  split at h
  · exact absurd h (by simp)
  rename_i dat2 hrb
  split at h
  · exact absurd h (by simp)
  rename_i trail ht
  split at h
  · exact absurd h (by simp)
  rename_i htr
  push_neg at htr
  have hsum := computeOffset_sum hco hsz
  rw [hle] at hl
  have heq2 : readSkip s b + 4 + off + rsize + rem
      = readSkip s b + 4 + sz := by omega
  rw [heq2, htr] at ht
  exact ⟨hl, ht⟩

/-- Claim C3: on a file accepted by `_file_check`, every present block's
leading and trailing record markers equal the size computed by the layout
engine; and whenever either marker that `read_block` checks differs from
the computed size, the read fails instead of returning data. -/
theorem C3_record_markers (s : Sim) (f : File) (b : BKey) (sz : Nat)
    (hsz : blockSizes s b = some sz) :
    (fileCheck s f = .ok () → 0 < sz →
      rd4 s.swap f (specOffset s b) = some sz ∧
      rd4 s.swap f (specOffset s b + 4 + sz) = some sz) ∧
    (∀ cfg p, parseHeader cfg f = .ok s →
      (rd4 s.swap f (readSkip s b) ≠ some sz ∨
       rd4 s.swap f (readSkip s b + 4 + sz) ≠ some sz) →
      (readBlock cfg f b p).isOk = false) := by
  constructor
  · intro hfc hpos
    have hmem : b ∈ blockKeys := by cases b <;> simp [blockKeys]
    have hw := fileCheckAux_markers blockKeys 0 hfc b hmem sz hsz hpos
    have hsp : ((blockKeys.takeWhile (fun k => decide (k ≠ b))).map
        (blockBytes s)).sum = specOffset s b := by
      cases b <;> rfl
    rw [hsp] at hw
    simpa using hw
  · intro cfg p hph hbad
    simp only [readBlock, hph]
    cases hcore : readBlockCore s f b p with
    | error e => rfl
    | ok dat =>
      have hmk := readBlockCore_ok_markers hcore hsz
      rcases hbad with hb1 | hb2
      · exact absurd hmk.1 hb1
      · exact absurd hmk.2 hb2

set_option maxRecDepth 40000 in
/-- Claim C3 (witness): the `simB` snapshot; its pos block markers sit at
specOffset 264, and corrupting the leading marker byte makes the read
fail. -/
theorem C3_record_markers_witness :
    (rd4 simB.swap fileB (specOffset simB .pos) = some 24 ∧
     rd4 simB.swap fileB (specOffset simB .pos + 4 + 24) = some 24) ∧
    (readBlock cfgB fileBc .pos .gas).isOk = false := by
  constructor
  · exact (C3_record_markers simB fileB .pos 24 (by decide)).1 (by decide)
      (by decide)
  · exact (C3_record_markers simB fileBc .pos 24 (by decide)).2 cfgB .gas
      (by decide) (Or.inl (by decide))


/-- The fold initial value is below the fold of numpy max. -/
theorem init_le_foldl_max : ∀ (t : List Nat) (a : Nat), a ≤ t.foldl Nat.max a := by
  intro t
  induction t with
  | nil => intro a; exact Nat.le_refl a
  | cons b t ih =>
    intro a
    calc a ≤ Nat.max a b := Nat.le_max_left a b
      _ ≤ (b :: t).foldl Nat.max a := by simpa using ih (Nat.max a b)

/-- Every element is below the fold of numpy max. -/
theorem mem_le_foldl_max : ∀ (t : List Nat) (a v : Nat), v ∈ t →
    v ≤ t.foldl Nat.max a := by
  intro t
  induction t with
  | nil => intro a v hv; simp at hv
  | cons b t ih =>
    intro a v hv
    rcases List.mem_cons.mp hv with hb | ht
    · subst hb
      calc v ≤ Nat.max a v := Nat.le_max_right a v
        _ ≤ (v :: t).foldl Nat.max a := by
          rw [List.foldl_cons]
          exact init_le_foldl_max t (Nat.max a v)
    · rw [List.foldl_cons]
      exact ih (Nat.max a b) v ht

/-- `ind.max()` bounds every entry of the identifier column. -/
theorem le_npMax {l : List Nat} {m : Nat} (h : npMax l = some m) :
    ∀ v ∈ l, v ≤ m := by
  cases l with
  | nil => simp [npMax] at h
  | cons x xs =>
    simp only [npMax, Option.some.injEq] at h
    subst h
    intro v hv
    rcases List.mem_cons.mp hv with hx | hxs
    · subst hx; exact init_le_foldl_max xs v
    · exact mem_le_foldl_max xs x v hxs

/-- In a strictly ascending column, the left insertion point of the entry
at position `k` is `k` itself. -/
theorem rank_of_strictSorted :
    ∀ (s : List Nat), s.Pairwise (· < ·) → ∀ k, k < s.length →
      searchsortedL s (s.getD k 0) = k := by
  intro s
  induction s with
  | nil => intro _ k hk; simp at hk
  | cons a t ih =>
    intro hp k hk
    have hhead : ∀ x ∈ t, a < x := fun x hx =>
      (List.pairwise_cons.mp hp).1 x hx
    cases k with
    | zero =>
      simp only [List.getD_cons_zero, searchsortedL, List.countP_cons]
      have hz : t.countP (fun x => decide (x < a)) = 0 :=
        List.countP_eq_zero.mpr (fun x hx => by
          have := hhead x hx
          simp only [decide_eq_true_eq]
          omega)
      simp [hz, Nat.lt_irrefl]
    | succ k =>
      simp only [List.getD_cons_succ, searchsortedL, List.countP_cons]
      have hkt : k < t.length := by simpa using hk
      have hgd : t.getD k 0 = t[k] := List.getD_eq_getElem t 0 hkt
      have hv : t.getD k 0 ∈ t := by rw [hgd]; exact List.getElem_mem hkt
      have hav : a < t.getD k 0 := hhead _ hv
      have hr := ih (List.pairwise_cons.mp hp).2 k hkt
      simp only [searchsortedL] at hr
      simp only [List.getD_eq_getElem?_getD] at hr hav ⊢
      simp [hr, hav]


/-- Reading every position of a list in order reproduces the list. -/
theorem map_getD_range (l : List Nat) :
    (List.range l.length).map (fun k => l.getD k 0) = l := by
  apply List.ext_getElem
  · simp
  · intro i h1 h2
    simp only [List.getElem_map, List.getElem_range]
    exact List.getD_eq_getElem l 0 h2

/-- Gathering a list by the identity index sequence reproduces the
list. -/
theorem filterMap_get_range (l : List (Nat × List Nat)) :
    (List.range l.length).filterMap (fun k => l.get? k) = l := by
  induction l with
  | nil => rfl
  | cons a t ih =>
    rw [List.length_cons, List.range_succ_eq_map]
    simp only [List.filterMap_cons, List.filterMap_map, Function.comp_def,
      List.get?_cons_zero, List.get?_cons_succ]
    rw [ih]

/-- With unique identifiers, `find?` on the identifier column returns the
one matching row. -/
theorem find_unique_fst {df : List (Nat × List Nat)}
    (hnd : (df.map Prod.fst).Nodup) {pr : Nat × List Nat} (hpr : pr ∈ df) :
    df.find? (fun q => q.1 == pr.1) = some pr := by
  induction df with
  | nil => simp at hpr
  | cons q t ih =>
    simp only [List.map_cons, List.nodup_cons] at hnd
    by_cases hq : q.1 = pr.1
    · rw [List.find?_cons_of_pos _ (by simp [hq])]
      rcases List.mem_cons.mp hpr with hqq | ht
      · rw [hqq]
      · exact absurd (hq ▸ List.mem_map_of_mem Prod.fst ht) hnd.1
    · rw [List.find?_cons_of_neg _ (by simp [hq])]
      rcases List.mem_cons.mp hpr with hqq | ht
      · exact absurd (congrArg Prod.fst hqq).symm hq
      · exact ih hnd.2 ht


/-- Reading the identifier column at every position in order reproduces
it. -/
theorem map_keyOf_range (l : List Nat) :
    (List.range l.length).map (keyOf l) = l := by
  show (List.range l.length).map (fun k => l.getD k 0) = l
  exact map_getD_range l

/-- Claim C8 (amended): for a non-empty block with unique identifiers none
of whose rows contains a NaN payload word (`dropna` removes NaN rows),
`filter_bloc_by_ids` applied to the block's own identifier list returns
exactly the original rows (in the order the identifiers were given, hence
unchanged), and applied to an empty identifier list returns an empty
result. -/
theorem C8_filter_roundtrip (block : IdBlock) (hne : block ≠ [])
    (hnd : (block.map Prod.fst).Nodup)
    (hnn : ∀ pr ∈ block, rowHasNaN pr.2 = false) :
    filterBlocByIds block (block.map Prod.fst) = .ok block ∧
    filterBlocByIds block [] = .ok [] := by
  obtain ⟨m, hm⟩ : ∃ m, npMax (block.map Prod.fst) = some m := by
    cases block with
    | nil => exact absurd rfl hne
    | cons q t => exact ⟨_, rfl⟩
  have hlen : (block.map Prod.fst).length = block.length :=
    List.length_map _ _
  have hperm : List.Perm (argsortNat (block.map Prod.fst))
      (List.range (block.map Prod.fst).length) :=
    List.perm_insertionSort _ _
  have hslen : (argsortNat (block.map Prod.fst)).length = block.length := by
    rw [hperm.length_eq, List.length_range, hlen]
  haveI hTot : IsTotal Nat (fun i j =>
      keyOf (block.map Prod.fst) i ≤ keyOf (block.map Prod.fst) j) :=
    ⟨fun a b => Nat.le_total _ _⟩
  haveI hTrans : IsTrans Nat (fun i j =>
      keyOf (block.map Prod.fst) i ≤ keyOf (block.map Prod.fst) j) :=
    ⟨fun a b c hab hbc => Nat.le_trans hab hbc⟩
  have hsorted := List.sorted_insertionSort (fun i j =>
      keyOf (block.map Prod.fst) i ≤ keyOf (block.map Prod.fst) j)
    (List.range (block.map Prod.fst).length)
  have hsi_sorted : ((argsortNat (block.map Prod.fst)).map
      (keyOf (block.map Prod.fst))).Sorted (· ≤ ·) := by
    rw [List.Sorted, List.pairwise_map]
    exact hsorted
  have hsi_perm : List.Perm ((argsortNat (block.map Prod.fst)).map
      (keyOf (block.map Prod.fst))) (block.map Prod.fst) := by
    have h1 := hperm.map (keyOf (block.map Prod.fst))
    rwa [map_keyOf_range] at h1
  have hsi_nodup : ((argsortNat (block.map Prod.fst)).map
      (keyOf (block.map Prod.fst))).Nodup := hsi_perm.nodup_iff.mpr hnd
  have hstrict : ((argsortNat (block.map Prod.fst)).map
      (keyOf (block.map Prod.fst))).Pairwise (· < ·) :=
    (hsi_sorted.and hsi_nodup).imp
      (fun h => Nat.lt_of_le_of_ne h.1 h.2)
  have hsilen : ((argsortNat (block.map Prod.fst)).map
      (keyOf (block.map Prod.fst))).length = block.length := by
    rw [List.length_map, hslen]
  have hrank_map : ((argsortNat (block.map Prod.fst)).map
        (keyOf (block.map Prod.fst))).map
        (searchsortedL ((argsortNat (block.map Prod.fst)).map
          (keyOf (block.map Prod.fst))))
      = List.range block.length := by
    apply List.ext_getElem
    · simp [hsilen, hslen]
    · intro i h1 h2
      simp only [List.getElem_map, List.getElem_range]
      have hilt : i < ((argsortNat (block.map Prod.fst)).map
          (keyOf (block.map Prod.fst))).length := by
        simpa [hsilen] using h2
      have hr := rank_of_strictSorted _ hstrict i hilt
      rw [List.getD_eq_getElem _ 0 hilt] at hr
      simpa using hr
  have hhits_perm : List.Perm ((block.map Prod.fst).map
        (searchsortedL ((argsortNat (block.map Prod.fst)).map
          (keyOf (block.map Prod.fst)))))
      (List.range block.length) := by
    have h1 := (hsi_perm.symm).map
      (searchsortedL ((argsortNat (block.map Prod.fst)).map
        (keyOf (block.map Prod.fst))))
    rwa [hrank_map] at h1
  have e3 : npUnique ((block.map Prod.fst).map
        (searchsortedL ((argsortNat (block.map Prod.fst)).map
          (keyOf (block.map Prod.fst)))))
      = List.range block.length := by
    unfold npUnique
    have hps : List.insertionSort (· ≤ ·) ((block.map Prod.fst).map
          (searchsortedL ((argsortNat (block.map Prod.fst)).map
            (keyOf (block.map Prod.fst)))))
        = List.range block.length :=
      List.eq_of_perm_of_sorted
        ((List.perm_insertionSort _ _).trans hhits_perm)
        (List.sorted_insertionSort _ _)
        (List.sorted_le_range block.length)
    rw [hps]
    exact List.dedup_eq_self.mpr (List.nodup_range _)
  have e4 : (List.range block.length).map
        (fun k => (argsortNat (block.map Prod.fst)).getD k 0)
      = argsortNat (block.map Prod.fst) := by
    apply List.ext_getElem
    · simp [hslen]
    · intro i h1 h2
      simp only [List.getElem_map, List.getElem_range]
      exact List.getD_eq_getElem _ 0 (by simpa [hslen] using h2)
  have hdf_perm : List.Perm ((argsortNat (block.map Prod.fst)).filterMap
        (fun j => block.get? j)) block := by
    have h1 := hperm.filterMap (fun j => block.get? j)
    rw [hlen, filterMap_get_range] at h1
    exact h1
  have hdf_nodup : (((argsortNat (block.map Prod.fst)).filterMap
        (fun j => block.get? j)).map Prod.fst).Nodup :=
    ((hdf_perm.map Prod.fst).nodup_iff).mpr hnd
  have e6 : (block.map Prod.fst).filterMap (fun v =>
        ((argsortNat (block.map Prod.fst)).filterMap
          (fun j => block.get? j)).find? (fun pr => pr.1 == v))
      = block := by
    rw [List.filterMap_map]
    have hcg : ∀ pr ∈ block, ((fun v =>
          ((argsortNat (block.map Prod.fst)).filterMap
            (fun j => block.get? j)).find? (fun pr2 => pr2.1 == v))
          ∘ Prod.fst) pr = some pr := fun pr hpr =>
      find_unique_fst hdf_nodup (hdf_perm.mem_iff.mpr hpr)
    rw [List.filterMap_congr hcg]
    exact List.filterMap_some block
  have e1 : (block.map Prod.fst).filter (fun v => decide (v ≤ m))
      = block.map Prod.fst :=
    List.filter_eq_self.mpr (fun a ha => by
      simpa using le_npMax hm a ha)
  have e7 : block.filter (fun pr => !rowHasNaN pr.2) = block :=
    List.filter_eq_self.mpr (fun pr hpr => by simp [hnn pr hpr])
  constructor
  · simp only [filterBlocByIds]
    rw [hm]
    dsimp only
    rw [e1, e3, e4, e6, e7]
  · simp only [filterBlocByIds]
    rw [hm]
    dsimp only
    simp [npUnique]


/-- Claim C8 (amended, witness): the three-row block `blockW`, whose rows
contain no NaN words. -/
theorem C8_filter_roundtrip_witness :
    filterBlocByIds blockW (blockW.map Prod.fst) = .ok blockW ∧
    filterBlocByIds blockW [] = .ok [] :=
  C8_filter_roundtrip blockW (by decide) (by decide) (by decide)

/-- A row whose float payload is NaN (exponent bits set, non-zero
mantissa) is dropped by the final `dropna`, so NaN-containing blocks do
not round-trip: this is the divergence that forces the NaN exclusion in
the amended claim C8. -/
theorem filterBloc_drops_nan_row :
    float32IsNaN 2139095041 = true ∧
    filterBlocByIds [(1, [50]), (2, [2139095041])] [1, 2]
      = .ok [(1, [50])] := by
  decide


/-- Claim C6 (amended): a particle type is in the mass block's domain (a
key of `_compute_offset`'s `particle_number` dictionary, hence contributing
rows) exactly when its per-type header mass is zero AND its particle count
is non-zero; in particular a type with non-zero header mass is never in the
domain. -/
theorem C6_mass_domain (s : Sim) (p : PKey) :
    (domainCount s .mass p).isSome = true ↔
      (floatWordIsZero (s.pmassw p) = true ∧ s.pnum p ≠ 0) := by
  simp only [domainCount]
  split_ifs with h1 h2 h3 h4 h5 h6 <;> simp_all

/-- Claim C9: for a Subfind catalogue whose recorded subhalo offsets have
the cumulative structure of the format (each subhalo's offset is the
previous offset plus the previous length, and every run lies inside the
identifier stream), the identifier run sliced out for every subhalo has
length exactly the recorded subhalo length, and the stream index ranges of
consecutive subhalos do not overlap. -/
theorem C9_subhalo_id_runs (allIds : List Nat) (suboffset sublen : List Nat)
    (nsub : Nat)
    (hcum : ∀ sub, sub + 1 < nsub →
      suboffset.getD (sub + 1) 0 = suboffset.getD sub 0 + sublen.getD sub 0)
    (hbound : ∀ sub, sub < nsub →
      suboffset.getD sub 0 + sublen.getD sub 0 ≤ allIds.length) :
    (∀ sub, sub < nsub →
      ((subfindSliceIds allIds suboffset sublen nsub).getD sub []).length
        = sublen.getD sub 0) ∧
    (∀ sub j j', sub + 1 < nsub → j < sublen.getD sub 0 →
      j' < sublen.getD (sub + 1) 0 →
      suboffset.getD sub 0 + j ≠ suboffset.getD (sub + 1) 0 + j') := by
  constructor
  · intro sub hsub
    have hget : (subfindSliceIds allIds suboffset sublen nsub).getD sub []
        = (allIds.drop (suboffset.getD sub 0)).take (sublen.getD sub 0) := by
      simp [subfindSliceIds, List.getD, List.get?_eq_getElem?,
        List.getElem?_map, List.getElem?_range, hsub]
    rw [hget]
    have hb := hbound sub hsub
    simp only [List.getD, List.get?_eq_getElem?] at hb ⊢
    simp [List.length_take, List.length_drop]
    omega
  · intro sub j j' hs hj hj'
    have := hcum sub hs
    omega

/-- Claim C9 (witness): a concrete two-subhalo catalogue with stream
`[10, 20, 30, 40, 50]`, lengths `[2, 3]` and offsets `[0, 2]`. -/
theorem C9_subhalo_id_runs_witness :
    ((subfindSliceIds [10, 20, 30, 40, 50] [0, 2] [2, 3] 2).getD 0 []).length
      = 2 ∧
    ((subfindSliceIds [10, 20, 30, 40, 50] [0, 2] [2, 3] 2).getD 1 []).length
      = 3 := by
  have h := C9_subhalo_id_runs [10, 20, 30, 40, 50] [0, 2] [2, 3] 2
    (by intro sub hs; have hz : sub = 0 := by omega
        subst hz; decide)
    (by intro sub hs; interval_cases sub <;> decide)
  exact ⟨h.1 0 (by decide), h.1 1 (by decide)⟩

/-- Claim C10: when every fragment of a FOF catalogue declares a local
group count of zero, `_load_catalogue` never populates the per-group
arrays, and constructing the reader raises (the final attribute loop looks
up an empty dictionary) instead of producing an empty group table. -/
theorem C10_fof_all_empty_error (frags : List FofFragment)
    (h : ∀ fr ∈ frags, fr.ngroups = 0) :
    fofLoadCatalogue frags = .error "KeyError: grouplen" := by
  have hnone : frags.foldl fofStep none = none := by
    induction frags with
    | nil => rfl
    | cons fr rest ih =>
      have h0 : fr.ngroups = 0 := h fr (by simp)
      have hstep : fofStep none fr = none := by simp [fofStep, h0]
      simp only [List.foldl_cons, hstep]
      exact ih (fun g hg => h g (by simp [hg]))
  simp [fofLoadCatalogue, hnone]

/-- Claim C10 (witness): a two-fragment catalogue, both fragments with
local group count zero. -/
theorem C10_fof_all_empty_error_witness :
    fofLoadCatalogue [⟨0, 0, [], [], [], [], [], []⟩,
                      ⟨0, 5, [], [], [], [], [], []⟩]
      = .error "KeyError: grouplen" :=
  C10_fof_all_empty_error _ (by decide)

end PyGadget
